import Mathlib

/-!
A shallow embedding of the persistent rope container `src/ipld/rope.rs` of the
`ppar` crate, together with theorems settling the frozen claims about it.

Modelling conventions:

* `Rc<Node<T>>` sharing only affects memory, never functional behaviour, so a
  child reference is embedded as a plain subterm.
* `usize` arithmetic is embedded as `Nat`; no quantity in the embedded
  operations can wrap around `usize` on inputs the claims range over.
* Rust slice and vector indexing aborts the process when out of bounds; such
  aborts are modelled with `Option` (`none` = abort), wrapped around the
  `Result` value a non-aborting call returns.
* The element type `T` is a type parameter `α`; `size_of::<T>()` is passed
  explicitly as a `tsize : Nat` argument wherever the source uses it.
* The two `f64` computations of the source are modelled by their exact real
  counterparts: `((len as f64).log2() as usize)` becomes `natLog2 len`
  (the floor of the base-2 logarithm, with `natLog2 0 = 0` matching the
  saturating cast of negative infinity to `usize`), and the comparison
  `(max_depth as f64) > (n_leafs as f64.log2() * 3)` becomes the equivalent
  integer comparison `n_leafs ^ 3 < 2 ^ max_depth`; the equivalence of the
  latter with the real-logarithm inequality is proved in the theorem for
  claim C9.
-/

namespace Ppar

variable {α : Type} {β : Type}

/-- The two error kinds raised by `rope.rs` through `err_at!`:
`Error::IndexFail` and `Error::Fatal`. -/
inductive Error where
  | indexFail
  | fatal
deriving DecidableEq

instance {ε σ : Type} [DecidableEq ε] [DecidableEq σ] : DecidableEq (Except ε σ) := fun x y =>
  match x, y with
  | .error a, .error b =>
    match decEq a b with
    | .isTrue h => .isTrue (by rw [h])
    | .isFalse h => .isFalse (fun hh => h (by cases hh; rfl))
  | .error _, .ok _ => .isFalse (fun hh => by cases hh)
  | .ok _, .error _ => .isFalse (fun hh => by cases hh)
  | .ok a, .ok b =>
    match decEq a b with
    | .isTrue h => .isTrue (by rw [h])
    | .isFalse h => .isFalse (fun hh => h (by cases hh; rfl))

/-- `const LEAF_CAP: usize = 1024; // in bytes.` (rope.rs line 22). -/
def LEAF_CAP : Nat := 1024

/-- `fn leaf_size<T>(cap: usize) -> usize { let s = mem::size_of::<T>(); (cap / s) + 1 }`
(rope.rs lines 394-397).  `tsize` stands for `mem::size_of::<T>()`. -/
def leaf_size (tsize cap : Nat) : Nat := cap / tsize + 1

/-- `fn can_rebalance<T>(max_depth: usize, len: usize) -> bool` (rope.rs lines 399-406).
The source computes `n_leafs = len / leaf_size::<T>(LEAF_CAP)`, returns `false`
when `max_depth < 30`, and otherwise returns whether
`(max_depth as f64) > (n_leafs as f64).log2() * 3_f64`.  The `f64` comparison is
modelled exactly over the reals; for naturals `d ≥ 30` and `n`, the inequality
`d > log2 n * 3` holds iff `n ^ 3 < 2 ^ d` (proved as part of claim C9), which
is the executable form used here. -/
def can_rebalance (tsize max_depth len : Nat) : Bool :=
  let n_leafs := len / leaf_size tsize LEAF_CAP
  if max_depth < 30 then false
  else if n_leafs ^ 3 < 2 ^ max_depth then true
  else false

/-- Fuel-driven helper for `natLog2`; the fuel is always at least the argument,
which is enough since `⌊log2 n⌋ < n` for `n ≥ 1`. -/
def natLog2Aux : Nat → Nat → Nat
  | 0, _ => 0
  | fuel + 1, n => if n < 2 then 0 else natLog2Aux fuel (n / 2) + 1

/-- Models `(n as f64).log2() as usize` (rope.rs line 145): the floor of the
base-2 logarithm for `n ≥ 1`, and `0` for `n = 0` (the cast of `-inf` to
`usize` saturates at `0`). -/
def natLog2 (n : Nat) : Nat := natLog2Aux n n

/-- `enum Node<T>` (rope.rs lines 181-193): `M` is an intermediate node with a
`weight` and two children, `Z` is a leaf block holding a run of items. -/
inductive Node (α : Type) where
  | M (weight : Nat) (left right : Node α)
  | Z (data : List α)
deriving DecidableEq

/-- Structural size of a tree, used only as a termination measure for the
embedding of the stack-based leaf collection loop. -/
def Node.size : Node α → Nat
  | .M _ left right => left.size + right.size + 1
  | .Z _ => 1

/-- `Node::len` (rope.rs lines 207-212): `weight + right.len()` on a branch,
`data.len()` on a leaf.  This is the `count()` of the specification. -/
def Node.len : Node α → Nat
  | .M weight _ right => weight + right.len
  | .Z data => data.length

/-- `Node::get` (rope.rs lines 228-234).  The source indexes `&data[off]`,
which aborts when `off` is out of bounds; hence the `Option`. -/
def Node.get : Node α → Nat → Option α
  | .M weight left right, off =>
    if off < weight then left.get off else right.get (off - weight)
  | .Z data, off => data[off]?

/-- `Node::split_insert` (rope.rs lines 333-359).  Splits `data` at
`m = data.len() / 2` (all items go left for sizes `0` and `1`), inserts `val`
into the half its offset falls into, and wraps the halves in a branch whose
weight is the resulting left size.  `Vec::insert` aborts when the index
exceeds the length, which can happen in the right half; hence the `Option`. -/
def Node.split_insert (data : List α) (off : Nat) (val : α) : Option (Node α) :=
  let m := data.length / 2
  let p : List α × List α :=
    match data.length with
    | 0 => ([], [])
    | 1 => (data, [])
    | _ + 2 => (data.take m, data.drop m)
  let ld := p.1
  let rd := p.2
  if off < ld.length then
    let ld2 := ld.take off ++ [val] ++ ld.drop off
    some (.M ld2.length (.Z ld2) (.Z rd))
  else
    if off - ld.length ≤ rd.length then
      let rd2 := rd.take (off - ld.length) ++ [val] ++ rd.drop (off - ld.length)
      some (.M ld.length (.Z ld) (.Z rd2))
    else none

/-- `Node::insert` (rope.rs lines 237-274).  Returns the rebuilt node together
with the maximum recursion depth reached.  On a branch it recurses into the
side holding `off`, bumping the rebuilt branch weight by one when going left.
On a leaf below capacity it splices the value in at the local offset (the
slicing `&data[..off]` aborts when `off > data.len()`); at capacity it calls
`split_insert`. -/
def Node.insert (tsize : Nat) : Node α → Nat → α → Nat → Option (Node α × Nat)
  | .M weight left right, off, val, depth =>
    let depth := depth + 1
    if off < weight then
      (left.insert tsize off val depth).map (fun p => (.M (weight + 1) p.1 right, p.2))
    else
      ((right.insert tsize (off - weight) val depth).map
        (fun p => (.M weight left p.1, p.2)))
  | .Z data, off, val, depth =>
    let depth := depth + 1
    if data.length < leaf_size tsize LEAF_CAP then
      if off ≤ data.length then
        some (.Z (data.take off ++ [val] ++ data.drop off), depth)
      else none
    else (Node.split_insert data off val).map (fun n => (n, depth))

/-- `Node::set` (rope.rs lines 276-300).  `data[off] = value` aborts when `off`
is out of bounds; hence the `Option`. -/
def Node.set : Node α → Nat → α → Option (Node α)
  | .M weight left right, off, value =>
    if off < weight then
      (left.set off value).map (fun l => .M weight l right)
    else
      (right.set (off - weight) value).map (fun r => .M weight left r)
  | .Z data, off, value =>
    if off < data.length then some (.Z (data.set off value)) else none

/-- `Node::delete` (rope.rs lines 302-331).  On a branch it recurses into the
side holding `off`, decrementing the rebuilt branch weight when going left.
On a leaf the source builds `data[off..].to_vec()` extended with
`data[(off + 1)..]` — note the first slice starts at `off`, not `..off`; the
slice `data[(off + 1)..]` aborts when `off ≥ data.len()`, hence the `Option`. -/
def Node.delete : Node α → Nat → Option (Node α)
  | .M weight left right, off =>
    if off < weight then
      (left.delete off).map (fun l => .M (weight - 1) l right)
    else
      (right.delete (off - weight)).map (fun r => .M weight left r)
  | .Z data, off =>
    if off < data.length then some (.Z (data.drop off ++ data.drop (off + 1)))
    else none

/-- `Vec::pop`: removes and returns the last element. -/
def vecPop (zs : List β) : Option (β × List β) :=
  match zs.getLast? with
  | none => none
  | some x => some (x, zs.dropLast)

/-- `Node::build_bottoms_up` (rope.rs lines 361-391).  The mutable `zs` vector
is threaded explicitly: the result carries the remaining vector.  At depth 1
it pops one or two blocks and combines them into a branch (a lone block is
paired with an empty block; an empty vector yields an empty block); at a
larger depth with a non-empty vector it builds the left then the right half at
`depth - 1` and combines them.  Depth `0` with a non-empty vector is
unreachable from the embedded callers (they always pass `natLog2 len + 1 ≥ 1`);
the Rust source would underflow there. -/
def Node.build_bottoms_up : Nat → List (Node α) → Node α × Nat × List (Node α)
  | 1, zs =>
    (match vecPop zs with
    | some lp =>
      let weight := lp.1.len
      (match vecPop lp.2 with
      | some rp => (.M weight lp.1 rp.1, weight + rp.1.len, rp.2)
      | none => (.M weight lp.1 (.Z []), weight, lp.2))
    | none => (.Z [], 0, zs))
  | 0, zs => (.Z [], 0, zs)
  | d + 2, zs =>
    if zs.length = 0 then (.Z [], 0, zs)
    else
      let pl := Node.build_bottoms_up (d + 1) zs
      let pr := Node.build_bottoms_up (d + 1) pl.2.2
      (.M pl.2.1 pl.1 pr.1, pl.2.1 + pr.2.1, pr.2.2)

/-- The loop body of `Rope::collect_zs` (rope.rs lines 158-178): on a leaf,
emit it and pop the explicit stack (stopping when the stack is empty); on a
branch, push the right child and descend left.  The stack is a list with its
head as the top. -/
def collectGo : Node α → List (Node α) → List (Node α) → List (Node α)
  | .Z d, [], acc => acc ++ [.Z d]
  | .Z d, s :: stack, acc => collectGo s stack (acc ++ [.Z d])
  | .M _ left right, stack, acc => collectGo left (right :: stack) acc
  termination_by n stack _ => n.size + (stack.map Node.size).sum
  decreasing_by
  · simp [Node.size]
  · simp [Node.size]; omega

/-- `struct Rope<T>` (rope.rs lines 24-31). -/
structure Rope (α : Type) where
  len : Nat
  root : Node α
  auto_rebalance : Bool
deriving DecidableEq

/-- `Rope::collect_zs` (rope.rs lines 158-178): the leaf blocks of the tree in
left-to-right order. -/
def Rope.collect_zs (root : Node α) : List (Node α) := collectGo root [] []

/-- `Rope::new` (rope.rs lines 37-46): length 0, a single empty block as root,
auto-rebalance enabled. -/
def Rope.new (α : Type) : Rope α := ⟨0, .Z [], true⟩

/-- The rebuild branch of `Rope::auto_rebalance` (rope.rs lines 139-153):
collect the leaf blocks, reverse them, rebuild bottom-up at target depth
`(self.len as f64).log2() as usize + 1` (note: `self.len`, the receiver's
length, not the `len` argument), and fail with `Fatal` when the rebuilt count
differs from the expected `len`. -/
def Rope.rebuild (r : Rope α) (root : Node α) (len : Nat) : Except Error (Node α) :=
  let zs := (Rope.collect_zs root).reverse
  let depth := natLog2 r.len + 1
  let p := Node.build_bottoms_up depth zs
  if p.2.1 ≠ len then .error .fatal else .ok p.1

/-- `Rope::auto_rebalance` (rope.rs lines 130-156); named `autoRebalance` here
because the structure field of the same name takes the source name.  With a
`Some(d)` depth whose `can_rebalance` heuristic answers `false`, the root is
returned unchanged; otherwise the rebuild runs when forced or when the
handle's auto-rebalance flag is set; otherwise the root is returned
unchanged. -/
def Rope.autoRebalance (tsize : Nat) (r : Rope α) (root : Node α)
    (max_depth : Option Nat) (force : Bool) (len : Nat) : Except Error (Node α) :=
  match max_depth with
  | some d =>
    if can_rebalance tsize d r.len = false then .ok root
    else if force || r.auto_rebalance then Rope.rebuild r root len
    else .ok root
  | none =>
    if force || r.auto_rebalance then Rope.rebuild r root len
    else .ok root

/-- `Rope::get` (rope.rs lines 66-74): `IndexFail` when `index ≥ len`,
otherwise delegate to the root (which may abort on a corrupted tree). -/
def Rope.get (r : Rope α) (index : Nat) : Option (Except Error α) :=
  if index < r.len then (r.root.get index).map .ok
  else some (.error .indexFail)

/-- `Rope::insert` (rope.rs lines 76-90): `IndexFail` when `off > len`;
otherwise insert at the root, run the auto-rebalance decision with the insert's
maximum depth, and wrap the new root with length `len + 1` and the same
auto-rebalance flag. -/
def Rope.insert (tsize : Nat) (r : Rope α) (off : Nat) (value : α) :
    Option (Except Error (Rope α)) :=
  if off ≤ r.len then
    match r.root.insert tsize off value 0 with
    | none => none
    | some p =>
      match Rope.autoRebalance tsize r p.1 (some p.2) false (r.len + 1) with
      | .error e => some (.error e)
      | .ok root => some (.ok ⟨r.len + 1, root, r.auto_rebalance⟩)
  else some (.error .indexFail)

/-- `Rope::set` (rope.rs lines 92-104): `IndexFail` when `off ≥ len`; otherwise
replace at the root, same length, same flag. -/
def Rope.set (r : Rope α) (off : Nat) (value : α) : Option (Except Error (Rope α)) :=
  if off < r.len then
    (r.root.set off value).map (fun root => .ok ⟨r.len, root, r.auto_rebalance⟩)
  else some (.error .indexFail)

/-- `Rope::delete` (rope.rs lines 106-118): `IndexFail` when `off ≥ len`;
otherwise delete at the root, length `len - 1`, same flag. -/
def Rope.delete (r : Rope α) (off : Nat) : Option (Except Error (Rope α)) :=
  if off < r.len then
    (r.root.delete off).map (fun root => .ok ⟨r.len - 1, root, r.auto_rebalance⟩)
  else some (.error .indexFail)

/-- `Rope::rebalance` (rope.rs lines 120-128): always calls `auto_rebalance`
with no depth and `force = true`, keeping length and flag. -/
def Rope.rebalance (tsize : Nat) (r : Rope α) : Except Error (Rope α) :=
  match Rope.autoRebalance tsize r r.root none true r.len with
  | .error e => .error e
  | .ok root => .ok ⟨r.len, root, r.auto_rebalance⟩

/-- Modelled from claim C3's words (the part the code contradicts): split the
block into a LEFT half of size `⌈n/2⌉` and a RIGHT half of size `⌊n/2⌋`
(sizes 0 and 1 put all items on one side), insert the value into whichever
half its block-local offset falls into (adjusting the offset when it falls in
the right half), and wrap the halves in a branch whose weight is the
resulting left block's size. -/
def claim_split_insert (data : List α) (off : Nat) (val : α) : Option (Node α) :=
  let n := data.length
  let lsize :=
    match n with
    | 0 => 0
    | 1 => 1
    | _ + 2 => (n + 1) / 2
  let ld := data.take lsize
  let rd := data.drop lsize
  if off < lsize then
    let ld2 := ld.take off ++ [val] ++ ld.drop off
    some (.M ld2.length (.Z ld2) (.Z rd))
  else
    if off - lsize ≤ rd.length then
      let rd2 := rd.take (off - lsize) ++ [val] ++ rd.drop (off - lsize)
      some (.M ld.length (.Z ld) (.Z rd2))
    else none

/-- Modelled from the amended claim C3: identical to `claim_split_insert`
except that the LEFT half has size `⌊n/2⌋` and the RIGHT half size `⌈n/2⌉`,
which is what the code computes. -/
def amended_split_insert (data : List α) (off : Nat) (val : α) : Option (Node α) :=
  let n := data.length
  let lsize :=
    match n with
    | 0 => 0
    | 1 => 1
    | _ + 2 => n / 2
  let ld := data.take lsize
  let rd := data.drop lsize
  if off < lsize then
    let ld2 := ld.take off ++ [val] ++ ld.drop off
    some (.M ld2.length (.Z ld2) (.Z rd))
  else
    if off - lsize ≤ rd.length then
      let rd2 := rd.take (off - lsize) ++ [val] ++ rd.drop (off - lsize)
      some (.M ld.length (.Z ld) (.Z rd2))
    else none

/-- Claim C1 (code bug).  The claim says `delete(off)` removes the item at
`off`.  The code's leaf case copies `data[off..]` followed by `data[off+1..]`
instead of `data[..off]` followed by `data[off+1..]`.  Concretely, with
8-byte elements: starting from `new()`, `insert(0, 10)` then `insert(1, 20)`
build the block `[10, 20]`; `delete(0)` then returns `Ok` with length 1 but
with root block `[10, 20, 20]`, so `get(0)` yields `10` where the claim
requires the original `get(1) = 20`. -/
theorem claim_C1_delete_leaf_bug :
    Rope.insert 8 (Rope.new Nat) 0 10 = some (.ok ⟨1, .Z [10], true⟩)
  ∧ Rope.insert 8 (⟨1, .Z [10], true⟩ : Rope Nat) 1 20 = some (.ok ⟨2, .Z [10, 20], true⟩)
  ∧ Rope.delete (⟨2, .Z [10, 20], true⟩ : Rope Nat) 0
      = some (.ok ⟨1, .Z [10, 20, 20], true⟩)
  ∧ Rope.get (⟨2, .Z [10, 20], true⟩ : Rope Nat) 1 = some (.ok 20)
  ∧ Rope.get (⟨1, .Z [10, 20, 20], true⟩ : Rope Nat) 0 = some (.ok 10) := by
  decide

/-- Claim C2 (code bug).  The invariant `length == root.count()` fails on a
sequence reachable from `new()` by successful public operations: after
`insert(0, 10)`, `insert(1, 20)` and the (buggy but `Ok`-returning)
`delete(0)`, the handle has `len = 1` while its root counts 3 items. -/
theorem claim_C2_length_invariant_broken :
    Rope.insert 8 (Rope.new Nat) 0 10 = some (.ok ⟨1, .Z [10], true⟩)
  ∧ Rope.insert 8 (⟨1, .Z [10], true⟩ : Rope Nat) 1 20 = some (.ok ⟨2, .Z [10, 20], true⟩)
  ∧ Rope.delete (⟨2, .Z [10, 20], true⟩ : Rope Nat) 0
      = some (.ok ⟨1, .Z [10, 20, 20], true⟩)
  ∧ (⟨1, .Z [10, 20, 20], true⟩ : Rope Nat).len
      ≠ (⟨1, .Z [10, 20, 20], true⟩ : Rope Nat).root.len := by
  decide

/-- Claim C3, counterexample.  With 512-byte elements the capacity is
`C = 1024/512 + 1 = 3`.  Inserting into the full block `[1, 2, 3]` at offset 0
splits it with LEFT size `⌊3/2⌋ = 1` (becoming `[9, 1]` after the insert) and
RIGHT size `⌈3/2⌉ = 2`, i.e. the branch `M 2 [9,1] [2,3]` — not the claimed
left-`⌈n/2⌉` split, which would give `M 3 [9,1,2] [3]`. -/
theorem claim_C3_counterexample :
    Node.insert 512 (Node.Z ([1, 2, 3] : List Nat)) 0 9 0
      = some (.M 2 (.Z [9, 1]) (.Z [2, 3]), 1)
  ∧ Node.split_insert ([1, 2, 3] : List Nat) 0 9
      ≠ claim_split_insert ([1, 2, 3] : List Nat) 0 9
  ∧ claim_split_insert ([1, 2, 3] : List Nat) 0 9
      = some (.M 3 (.Z [9, 1, 2]) (.Z [3])) := by
  decide

/-- Claim C4 (code bug).  The claim says every `insert(off, v)` with
`off ∈ [0, n]` returns `Ok`.  On the length-5 sequence reached from `new()`
(256-byte elements, capacity 5) by six inserts and one successful `delete`,
`insert(4, 9)` aborts (out-of-bounds slice in the leaf splice) instead of
returning `Ok`: the buggy delete left a branch whose weight exceeds its left
block's item count. -/
theorem claim_C4_insert_abort :
    Rope.insert 256 (Rope.new Nat) 0 1 = some (.ok ⟨1, .Z [1], true⟩)
  ∧ Rope.insert 256 (⟨1, .Z [1], true⟩ : Rope Nat) 1 2 = some (.ok ⟨2, .Z [1, 2], true⟩)
  ∧ Rope.insert 256 (⟨2, .Z [1, 2], true⟩ : Rope Nat) 2 3
      = some (.ok ⟨3, .Z [1, 2, 3], true⟩)
  ∧ Rope.insert 256 (⟨3, .Z [1, 2, 3], true⟩ : Rope Nat) 3 4
      = some (.ok ⟨4, .Z [1, 2, 3, 4], true⟩)
  ∧ Rope.insert 256 (⟨4, .Z [1, 2, 3, 4], true⟩ : Rope Nat) 4 5
      = some (.ok ⟨5, .Z [1, 2, 3, 4, 5], true⟩)
  ∧ Rope.insert 256 (⟨5, .Z [1, 2, 3, 4, 5], true⟩ : Rope Nat) 5 6
      = some (.ok ⟨6, .M 2 (.Z [1, 2]) (.Z [3, 4, 5, 6]), true⟩)
  ∧ Rope.delete (⟨6, .M 2 (.Z [1, 2]) (.Z [3, 4, 5, 6]), true⟩ : Rope Nat) 5
      = some (.ok ⟨5, .M 2 (.Z [1, 2]) (.Z [6]), true⟩)
  ∧ Rope.insert 256 (⟨5, .M 2 (.Z [1, 2]) (.Z [6]), true⟩ : Rope Nat) 4 9 = none := by
  decide

/-- Claim C5 (code bug).  The boundary classification itself holds, but the
claim also states that `insert(len, v)` (append) succeeds.  On the same
reachable length-5 sequence as in claim C4, the append `insert(5, 9)` aborts
(out-of-bounds slice) rather than succeeding. -/
theorem claim_C5_append_abort :
    Rope.insert 256 (Rope.new Nat) 0 1 = some (.ok ⟨1, .Z [1], true⟩)
  ∧ Rope.insert 256 (⟨1, .Z [1], true⟩ : Rope Nat) 1 2 = some (.ok ⟨2, .Z [1, 2], true⟩)
  ∧ Rope.insert 256 (⟨2, .Z [1, 2], true⟩ : Rope Nat) 2 3
      = some (.ok ⟨3, .Z [1, 2, 3], true⟩)
  ∧ Rope.insert 256 (⟨3, .Z [1, 2, 3], true⟩ : Rope Nat) 3 4
      = some (.ok ⟨4, .Z [1, 2, 3, 4], true⟩)
  ∧ Rope.insert 256 (⟨4, .Z [1, 2, 3, 4], true⟩ : Rope Nat) 4 5
      = some (.ok ⟨5, .Z [1, 2, 3, 4, 5], true⟩)
  ∧ Rope.insert 256 (⟨5, .Z [1, 2, 3, 4, 5], true⟩ : Rope Nat) 5 6
      = some (.ok ⟨6, .M 2 (.Z [1, 2]) (.Z [3, 4, 5, 6]), true⟩)
  ∧ Rope.delete (⟨6, .M 2 (.Z [1, 2]) (.Z [3, 4, 5, 6]), true⟩ : Rope Nat) 5
      = some (.ok ⟨5, .M 2 (.Z [1, 2]) (.Z [6]), true⟩)
  ∧ Rope.insert 256 (⟨5, .M 2 (.Z [1, 2]) (.Z [6]), true⟩ : Rope Nat) 5 9 = none := by
  decide

/-- Claim C7 (code bug).  The claim says `rebalance()` always returns a
sequence with the same length and contents.  On the sequence reached from
`new()` by `insert(0, 10)`, `insert(1, 20)`, `delete(0)` (all returning `Ok`),
`rebalance()` instead returns the `Fatal` error, because the rebuilt tree
counts 3 items against the recorded length 1. -/
theorem claim_C7_rebalance_fatal :
    Rope.insert 8 (Rope.new Nat) 0 10 = some (.ok ⟨1, .Z [10], true⟩)
  ∧ Rope.insert 8 (⟨1, .Z [10], true⟩ : Rope Nat) 1 20 = some (.ok ⟨2, .Z [10, 20], true⟩)
  ∧ Rope.delete (⟨2, .Z [10, 20], true⟩ : Rope Nat) 0
      = some (.ok ⟨1, .Z [10, 20, 20], true⟩)
  ∧ Rope.rebalance 8 (⟨1, .Z [10, 20, 20], true⟩ : Rope Nat) = .error .fatal := by
  refine ⟨by decide, by decide, by decide, ?_⟩
  simp [Rope.rebalance, Rope.autoRebalance, Rope.rebuild, Rope.collect_zs, collectGo,
    Node.build_bottoms_up, vecPop, natLog2, natLog2Aux, Node.len]

/-- Claim C8 (code bug).  The `Fatal` branch of the rebuild IS reachable from
`new()` through successful public operations: with 8-byte elements,
`insert(0, 10)`, `insert(1, 20)`, `insert(2, 30)` build `[10, 20, 30]`, the
buggy `delete(0)` returns `Ok` with length 2 but a 5-item root block, and
`rebalance()` then takes the post-rebuild count-mismatch branch, returning
`Fatal`. -/
theorem claim_C8_fatal_reached :
    Rope.insert 8 (Rope.new Nat) 0 10 = some (.ok ⟨1, .Z [10], true⟩)
  ∧ Rope.insert 8 (⟨1, .Z [10], true⟩ : Rope Nat) 1 20 = some (.ok ⟨2, .Z [10, 20], true⟩)
  ∧ Rope.insert 8 (⟨2, .Z [10, 20], true⟩ : Rope Nat) 2 30
      = some (.ok ⟨3, .Z [10, 20, 30], true⟩)
  ∧ Rope.delete (⟨3, .Z [10, 20, 30], true⟩ : Rope Nat) 0
      = some (.ok ⟨2, .Z [10, 20, 30, 20, 30], true⟩)
  ∧ Rope.rebalance 8 (⟨2, .Z [10, 20, 30, 20, 30], true⟩ : Rope Nat) = .error .fatal := by
  refine ⟨by decide, by decide, by decide, by decide, ?_⟩
  simp [Rope.rebalance, Rope.autoRebalance, Rope.rebuild, Rope.collect_zs, collectGo,
    Node.build_bottoms_up, vecPop, natLog2, natLog2Aux, Node.len]

/-- Claim C3 as amended: when `insert` reaches a block at capacity
(`¬ len < leaf_size`), it dispatches to `split_insert`, and `split_insert`
splits the block into a LEFT half of size `⌊n/2⌋` and a RIGHT half of size
`⌈n/2⌉` (sizes 0 and 1 put all items on one side), inserts the value into
whichever half its block-local offset falls into (adjusting the offset for the
right half), and wraps the halves in a branch whose weight is the resulting
left block's size — the behaviour captured by `amended_split_insert`. -/
theorem claim_C3_amended {α : Type} (tsize depth : Nat) (data : List α) (off : Nat) (val : α)
    (hcap : ¬ data.length < leaf_size tsize LEAF_CAP) :
    Node.insert tsize (.Z data) off val depth
      = (Node.split_insert data off val).map (fun nd => (nd, depth + 1))
  ∧ Node.split_insert data off val = amended_split_insert data off val := by
  constructor
  · simp [Node.insert, hcap]
  · rcases data with _ | ⟨a, _ | ⟨b, tl⟩⟩
    · rfl
    · rfl
    · simp [Node.split_insert, amended_split_insert, List.length_take,
        Nat.min_eq_left, Nat.div_le_self]

/-- Witness for claim C3's amended theorem: the block `[1, 2, 3]` is at
capacity for 512-byte elements, and the capacity branch of `insert` indeed
dispatches to `split_insert`. -/
theorem claim_C3_witness :
    ¬ (List.length ([1, 2, 3] : List Nat) < leaf_size 512 LEAF_CAP)
  ∧ Node.insert 512 (Node.Z ([1, 2, 3] : List Nat)) 0 9 0
      = (Node.split_insert ([1, 2, 3] : List Nat) 0 9).map (fun nd => (nd, 0 + 1)) :=
  ⟨by decide, (claim_C3_amended 512 0 [1, 2, 3] 0 9 (by decide)).1⟩

/-- Claim C6, counterexample.  The rebuild's target depth is NOT
`ceil(log2(length)) + 1`: at length 3 the claimed formula gives
`⌈log2 3⌉ + 1 = 3`, but the code computes `⌊log2 3⌋ + 1 = 2` — observably,
`rebalance()` of the (reachable) 3-item rope returns the depth-2 tree
`M 3 (M 3 [1,2,3] []) []`, which differs from the tree the bottom-up build
produces at depth 3. -/
theorem claim_C6_counterexample :
    (⌈Real.logb 2 3⌉ + 1 : ℤ) = 3
  ∧ Rope.insert 8 (⟨2, .Z [1, 2], true⟩ : Rope Nat) 2 3
      = some (.ok ⟨3, .Z [1, 2, 3], true⟩)
  ∧ Rope.rebalance 8 (⟨3, .Z [1, 2, 3], true⟩ : Rope Nat)
      = .ok ⟨3, .M 3 (.M 3 (.Z [1, 2, 3]) (.Z [])) (.Z []), true⟩
  ∧ (Node.build_bottoms_up 3 [Node.Z ([1, 2, 3] : List Nat)]).1
      ≠ .M 3 (.M 3 (.Z [1, 2, 3]) (.Z [])) (.Z []) := by
  refine ⟨?_, by decide, ?_, by decide⟩
  · have h1 : (1 : ℝ) < Real.logb 2 3 := by
      rw [Real.lt_logb_iff_rpow_lt (by norm_num) (by norm_num)]
      rw [Real.rpow_one]; norm_num
    have hlog4 : Real.logb 2 4 = 2 := by
      rw [show (4 : ℝ) = (2 : ℝ) ^ (2 : ℕ) by norm_num, Real.logb_pow,
        Real.logb_self_eq_one (by norm_num)]
      norm_num
    have h2 : Real.logb 2 3 ≤ 2 := by
      have hmono : Real.logb 2 3 ≤ Real.logb 2 4 := by
        apply Real.logb_le_logb_of_le <;> norm_num
      rw [hlog4] at hmono
      exact hmono
    have hc : (⌈Real.logb 2 3⌉ : ℤ) = 2 := by
      rw [Int.ceil_eq_iff]
      constructor
      · push_cast; linarith
      · push_cast; linarith
    rw [hc]
    norm_num
  · simp [Rope.rebalance, Rope.autoRebalance, Rope.rebuild, Rope.collect_zs, collectGo,
      Node.build_bottoms_up, vecPop, natLog2, natLog2Aux, Node.len]

/-- Claim C6 as amended: `rebalance()` rebuilds via `rebuild`, which collects
the leaf blocks, reverses them, and pairs them bottom-up at target depth
`⌊log2 length⌋ + 1` (not `⌈log2 length⌉ + 1`); at depth 1 the build pops one
or two blocks and combines them into a branch (a lone block is paired with an
empty block), and at depth > 1 it builds the left half then the right half at
`depth - 1` and combines them. -/
theorem claim_C6_amended {α : Type} (tsize : Nat) (r : Rope α) (zs : List (Node α)) (d : Nat) :
    Rope.rebalance tsize r
      = (match Rope.rebuild r r.root r.len with
         | .error e => .error e
         | .ok root => .ok ⟨r.len, root, r.auto_rebalance⟩)
  ∧ Rope.rebuild r r.root r.len
      = (let p := Node.build_bottoms_up (natLog2 r.len + 1) ((Rope.collect_zs r.root).reverse)
         if p.2.1 ≠ r.len then .error .fatal else .ok p.1)
  ∧ Node.build_bottoms_up 1 zs
      = (match vecPop zs with
         | some lp =>
           (match vecPop lp.2 with
            | some rp => (.M lp.1.len lp.1 rp.1, lp.1.len + rp.1.len, rp.2)
            | none => (.M lp.1.len lp.1 (.Z []), lp.1.len, lp.2))
         | none => (.Z [], 0, zs))
  ∧ Node.build_bottoms_up (d + 2) zs
      = (if zs.length = 0 then (.Z [], 0, zs)
         else
           let pl := Node.build_bottoms_up (d + 1) zs
           let pr := Node.build_bottoms_up (d + 1) pl.2.2
           (.M pl.2.1 pl.1 pr.1, pl.2.1 + pr.2.1, pr.2.2)) :=
  ⟨rfl, rfl, rfl, rfl⟩

/-- Claim C9 (confirmed).  `can_rebalance(max_depth, length)` returns `false`
whenever `max_depth < 30`, and otherwise returns `true` exactly when
`max_depth > log2(number_of_blocks) × 3` with
`number_of_blocks = length / leaf_size` — stated against the real base-2
logarithm, which also discharges the executable modelling of the source's
`f64` comparison. -/
theorem claim_C9_heuristic (tsize max_depth len : Nat) :
    (max_depth < 30 → can_rebalance tsize max_depth len = false)
  ∧ (30 ≤ max_depth →
      (can_rebalance tsize max_depth len = true ↔
        Real.logb 2 ((len / leaf_size tsize LEAF_CAP : Nat) : ℝ) * 3 < (max_depth : ℝ))) := by
  constructor
  · intro h
    simp [can_rebalance, h]
  · intro h
    have h30 : ¬ max_depth < 30 := Nat.not_lt.mpr h
    have hbool : can_rebalance tsize max_depth len = true
        ↔ (len / leaf_size tsize LEAF_CAP) ^ 3 < 2 ^ max_depth := by
      simp only [can_rebalance, if_neg h30]
      split <;> simp_all
    rw [hbool]
    set n := len / leaf_size tsize LEAF_CAP with hn
    rcases Nat.eq_zero_or_pos n with h0 | hpos
    · rw [h0]
      have hl : (0 : ℝ) < (max_depth : ℝ) := by
        have : (0 : Nat) < max_depth := lt_of_lt_of_le (by norm_num) h
        exact_mod_cast this
      have hr : (0 : ℕ) ^ 3 < 2 ^ max_depth := by positivity
      simp [Real.logb_zero, hr, hl]
    · have hnR : (0 : ℝ) < (n : ℝ) := by exact_mod_cast hpos
      constructor
      · intro hlt
        have h1 : ((n : ℝ)) ^ 3 < (2 : ℝ) ^ (max_depth : ℝ) := by
          rw [Real.rpow_natCast]; exact_mod_cast hlt
        have h2 := (Real.logb_lt_iff_lt_rpow (by norm_num : (1:ℝ) < 2)
          (by positivity : (0:ℝ) < (n : ℝ) ^ 3)).mpr h1
        rw [Real.logb_pow] at h2
        push_cast at h2
        linarith
      · intro hlt
        have h2 : Real.logb 2 ((n : ℝ) ^ 3) < (max_depth : ℝ) := by
          rw [Real.logb_pow]; push_cast; linarith
        have h1 := (Real.logb_lt_iff_lt_rpow (by norm_num : (1:ℝ) < 2)
          (by positivity : (0:ℝ) < (n : ℝ) ^ 3)).mp h2
        rw [Real.rpow_natCast] at h1
        exact_mod_cast h1

/-- Witness for claim C9: at `max_depth = 10` the heuristic answers `false`,
and at `max_depth = 35` with 8-byte elements and length 2 (zero full blocks)
it answers `true`. -/
theorem claim_C9_witness :
    can_rebalance 8 10 5 = false ∧ can_rebalance 8 35 2 = true :=
  ⟨(claim_C9_heuristic 8 10 5).1 (by norm_num),
   ((claim_C9_heuristic 8 35 2).2 (by norm_num)).mpr
     (by norm_num [leaf_size, LEAF_CAP, Real.logb_zero])⟩

/-- Claim C10 (confirmed).  `new()` enables the auto-rebalance policy flag,
and every handle returned with `Ok` by `insert`, `set`, `delete` or
`rebalance` carries the source handle's flag value unchanged. -/
theorem claim_C10_flag {α : Type} (tsize : Nat) (r r2 : Rope α) (off : Nat) (v : α) :
    (Rope.new α).auto_rebalance = true
  ∧ (Rope.insert tsize r off v = some (.ok r2) → r2.auto_rebalance = r.auto_rebalance)
  ∧ (Rope.set r off v = some (.ok r2) → r2.auto_rebalance = r.auto_rebalance)
  ∧ (Rope.delete r off = some (.ok r2) → r2.auto_rebalance = r.auto_rebalance)
  ∧ (Rope.rebalance tsize r = .ok r2 → r2.auto_rebalance = r.auto_rebalance) := by
  refine ⟨rfl, ?_, ?_, ?_, ?_⟩
  · intro h
    unfold Rope.insert at h
    split at h
    · split at h
      · exact Option.noConfusion h
      · split at h
        · rw [Option.some.injEq] at h
          exact Except.noConfusion h
        · rw [Option.some.injEq, Except.ok.injEq] at h
          subst h
          rfl
    · rw [Option.some.injEq] at h
      exact Except.noConfusion h
  · intro h
    unfold Rope.set at h
    split at h
    · rcases hs : r.root.set off v with _ | root
      · rw [hs] at h
        exact Option.noConfusion h
      · rw [hs] at h
        rw [Option.map_some', Option.some.injEq, Except.ok.injEq] at h
        subst h
        rfl
    · rw [Option.some.injEq] at h
      exact Except.noConfusion h
  · intro h
    unfold Rope.delete at h
    split at h
    · rcases hs : r.root.delete off with _ | root
      · rw [hs] at h
        exact Option.noConfusion h
      · rw [hs] at h
        rw [Option.map_some', Option.some.injEq, Except.ok.injEq] at h
        subst h
        rfl
    · rw [Option.some.injEq] at h
      exact Except.noConfusion h
  · intro h
    unfold Rope.rebalance at h
    split at h
    · exact Except.noConfusion h
    · rw [Except.ok.injEq] at h
      subst h
      rfl

/-- Witness for claim C10: `insert(0, 5)` on the fresh handle keeps the flag
value of the source handle. -/
theorem claim_C10_witness :
    (⟨1, Node.Z [5], true⟩ : Rope Nat).auto_rebalance = (Rope.new Nat).auto_rebalance :=
  (claim_C10_flag 8 (Rope.new Nat) (⟨1, Node.Z [5], true⟩ : Rope Nat) 0 5).2.1 (by decide)

end Ppar
